import Mathlib

/-!
Verification of the artha trading engine.

This file gives a shallow embedding of the parts of the repository that the
claims concern: the transaction-cost model and the buy/sell executor in
`src/engine/trade_executor.py`, the enhanced position model in
`src/models/transaction_models.py` (quantity, cost basis, average buy price,
FIFO lot matching), the `Portfolio` dataclass in `src/models/__init__.py`,
and the guard structure of the XIRR routine in
`src/utils/xirr_calculator.py`.

Python floats are embedded as exact rationals (`ℚ`), Python ints as `ℤ`,
dates as day numbers (`ℕ`).  Mutation of the portfolio is embedded as
explicit state passing: each executor call returns the new portfolio
together with its `TradeResult`.
-/

namespace Artha

/-! ### Configuration constants (`src/config.py`) -/

def BROKERAGE_RATE : ℚ := 3 / 10000
def STT_RATE_BUY : ℚ := 0
def STT_RATE_SELL : ℚ := 1 / 1000
def EXCHANGE_CHARGES_RATE : ℚ := 325 / 10000000
def GST_RATE : ℚ := 18 / 100
def SEBI_FEES_RATE : ℚ := 1 / 1000000

/-! ### Data model -/

/-- Transaction side, `TransactionType` in `src/utils/xirr_calculator.py`
(reused as `OrderSide` by the executor). -/
inductive TransactionType where
  | BUY
  | SELL
deriving DecidableEq, Repr

/-- `PositionTransaction` from `src/models/transaction_models.py`. -/
structure PositionTransaction where
  date : ℕ
  quantity : ℤ
  price : ℚ
  transaction_type : TransactionType
  commission : ℚ := 0
deriving DecidableEq, Repr

/-- `EnhancedPosition` from `src/models/transaction_models.py`.  The Python
class caches `_quantity`, `_avg_buy_price` and `_cost_basis`, recomputing
them from the transaction list in `_recalculate_position` after every
`add_transaction`; here they are derived functions of the transaction list,
which is extensionally the same since every mutation goes through
`add_transaction`. -/
structure EnhancedPosition where
  symbol : String
  current_price : ℚ
  transactions : List PositionTransaction
deriving DecidableEq, Repr

/-- Signed share count contributed by one transaction: the loop body
`total_quantity += quantity` for buys, `-=` for sells. -/
def signedQuantity (t : PositionTransaction) : ℤ :=
  match t.transaction_type with
  | .BUY => t.quantity
  | .SELL => -t.quantity

/-- Cost-basis contribution of one transaction: the loop body
`total_cost_basis += quantity * price + commission` for buys, nothing for
sells. -/
def costContribution (t : PositionTransaction) : ℚ :=
  match t.transaction_type with
  | .BUY => (t.quantity : ℚ) * t.price + t.commission
  | .SELL => 0

/-- Bought-share contribution of one transaction: the generator
`sum(trans.quantity for trans in transactions if BUY)`. -/
def boughtQuantity (t : PositionTransaction) : ℤ :=
  match t.transaction_type with
  | .BUY => t.quantity
  | .SELL => 0

/-- `EnhancedPosition.quantity`: net share count over all transactions
(`_recalculate_position`). -/
def EnhancedPosition.quantity (p : EnhancedPosition) : ℤ :=
  (p.transactions.map signedQuantity).sum

/-- `EnhancedPosition.cost_basis`: total cost basis over all BUY
transactions, commission included (`_recalculate_position`). -/
def EnhancedPosition.cost_basis (p : EnhancedPosition) : ℚ :=
  (p.transactions.map costContribution).sum

/-- Total bought quantity over all BUY transactions
(`_recalculate_position`). -/
def EnhancedPosition.total_bought_quantity (p : EnhancedPosition) : ℤ :=
  (p.transactions.map boughtQuantity).sum

/-- `EnhancedPosition.avg_buy_price`:
`cost_basis / total_bought_quantity if total_bought_quantity > 0 else 0`. -/
def EnhancedPosition.avg_buy_price (p : EnhancedPosition) : ℚ :=
  if 0 < p.total_bought_quantity then p.cost_basis / (p.total_bought_quantity : ℚ)
  else 0

/-- `EnhancedPosition.add_transaction`: appends the transaction (the cached
aggregates are recomputed, which the derived functions reflect). -/
def EnhancedPosition.add_transaction (p : EnhancedPosition)
    (t : PositionTransaction) : EnhancedPosition :=
  { p with transactions := p.transactions ++ [t] }

/-- `Portfolio` from `src/models/__init__.py`.  Positions reachable through
the executor are always `EnhancedPosition`s (the executor only ever appends
`EnhancedPosition`s, and converts any legacy `Position` it touches), so the
position list is embedded as a list of `EnhancedPosition`. -/
structure Portfolio where
  cash : ℚ
  positions : List EnhancedPosition
  realized_pnl : ℚ := 0
deriving DecidableEq, Repr

/-! ### Cost model (`TradeExecutor.calculate_all_costs`) -/

/-- Round half to even at integer precision, Python's `round(x)` on the
exact value. -/
def roundHalfEven (x : ℚ) : ℤ :=
  let f : ℤ := ⌊x⌋
  let frac : ℚ := x - f
  if frac < 1 / 2 then f
  else if 1 / 2 < frac then f + 1
  else if f % 2 = 0 then f else f + 1

/-- Python's `round(x, 2)`. -/
def roundTo2 (x : ℚ) : ℚ :=
  (roundHalfEven (x * 100) : ℚ) / 100

/-- The per-component cost breakdown dictionary built by
`calculate_all_costs`, each entry rounded to 2 decimal places. -/
structure CostBreakdown where
  brokerage : ℚ
  stt : ℚ
  exchange_charges : ℚ
  gst : ℚ
  sebi_fees : ℚ
  total : ℚ
deriving DecidableEq, Repr

/-- `TradeExecutor.calculate_all_costs`: returns the unrounded total and
the rounded breakdown. -/
def calculate_all_costs (trade_value : ℚ) (is_buy : Bool) :
    ℚ × CostBreakdown :=
  let brokerage := min (trade_value * BROKERAGE_RATE) 20
  let stt_rate := if is_buy then STT_RATE_BUY else STT_RATE_SELL
  let stt := trade_value * stt_rate
  let exchange_charges := trade_value * EXCHANGE_CHARGES_RATE
  let sebi_fees := trade_value * SEBI_FEES_RATE
  let taxable_amount := brokerage + exchange_charges
  let gst := taxable_amount * GST_RATE
  let total := brokerage + stt + exchange_charges + sebi_fees + gst
  (total,
    { brokerage := roundTo2 brokerage
      stt := roundTo2 stt
      exchange_charges := roundTo2 exchange_charges
      gst := roundTo2 gst
      sebi_fees := roundTo2 sebi_fees
      total := roundTo2 total })

/-! ### Trade execution (`TradeExecutor`) -/

/-- `TradeResult` dataclass. -/
structure TradeResult where
  success : Bool
  message : String
  executed_price : ℚ := 0
  quantity : ℤ := 0
  total_cost : ℚ := 0
  commission : ℚ := 0
  realized_pnl : ℚ := 0
  cost_breakdown : Option CostBreakdown := none
deriving DecidableEq, Repr

/-- `TradeExecutor.validate_trade_inputs`. -/
def validate_trade_inputs (symbol : String) (quantity : ℤ) (price : ℚ) :
    Bool × String :=
  if symbol = "" then (false, "Symbol cannot be empty")
  else if quantity ≤ 0 then (false, "Quantity must be positive")
  else if 10000 < quantity then (false, "Quantity too large (max 10,000)")
  else if price ≤ 0 then (false, "Price must be positive")
  else if 100000 < price then (false, "Price unrealistic")
  else (true, "OK")

/-- The position-lookup loop `for i, pos in enumerate(portfolio.positions):
if pos.symbol == symbol`, returning the first position with the symbol. -/
def findPos : List EnhancedPosition → String → Option EnhancedPosition
  | [], _ => none
  | p :: rest, s => if p.symbol = s then some p else findPos rest s

/-- The position-list mutation performed by a successful buy: the first
position with the symbol receives the transaction and has its
`current_price` set; if none exists a fresh `EnhancedPosition` holding the
transaction is appended. -/
def buyUpdate (symbol : String) (price : ℚ) (tx : PositionTransaction) :
    List EnhancedPosition → List EnhancedPosition
  | [] => [⟨symbol, price, [tx]⟩]
  | p :: rest =>
    if p.symbol = symbol then
      { p.add_transaction tx with current_price := price } :: rest
    else p :: buyUpdate symbol price tx rest

/-- The position-list mutation performed by a successful sell: the first
position with the symbol receives the SELL transaction; if its quantity is
then 0 it is popped, otherwise its `current_price` is set. -/
def sellUpdate (symbol : String) (price : ℚ) (tx : PositionTransaction) :
    List EnhancedPosition → List EnhancedPosition
  | [] => []
  | p :: rest =>
    if p.symbol = symbol then
      let p2 := p.add_transaction tx
      if p2.quantity = 0 then rest
      else ({ p2 with current_price := price }) :: rest
    else p :: sellUpdate symbol price tx rest

/-- `TradeExecutor.execute_buy`, returning the updated portfolio alongside
the `TradeResult`. -/
def execute_buy (portfolio : Portfolio) (symbol : String) (quantity : ℤ)
    (price : ℚ) (transaction_date : ℕ) : Portfolio × TradeResult :=
  let v := validate_trade_inputs symbol quantity price
  if v.1 = false then (portfolio, { success := false, message := v.2 })
  else
    let trade_value := price * (quantity : ℚ)
    let cc := calculate_all_costs trade_value true
    let commission := cc.1
    let total_cost := trade_value + commission
    if portfolio.cash < total_cost then
      (portfolio,
        { success := false, message := "Insufficient funds"
          cost_breakdown := some cc.2 })
    else
      let tx : PositionTransaction :=
        { date := transaction_date, quantity := quantity, price := price
          transaction_type := .BUY, commission := commission }
      ({ cash := portfolio.cash - total_cost
         positions := buyUpdate symbol price tx portfolio.positions
         realized_pnl := portfolio.realized_pnl },
       { success := true, message := "Bought", executed_price := price
         quantity := quantity, total_cost := total_cost
         commission := commission, cost_breakdown := some cc.2 })

/-- `TradeExecutor.execute_sell`, returning the updated portfolio alongside
the `TradeResult`.  As in the source, the realized P&L uses the position's
`avg_buy_price` read after the SELL transaction was added (a SELL changes
neither the cost basis nor the bought quantity, so this equals the
pre-sell average). -/
def execute_sell (portfolio : Portfolio) (symbol : String) (quantity : ℤ)
    (price : ℚ) (transaction_date : ℕ) : Portfolio × TradeResult :=
  let v := validate_trade_inputs symbol quantity price
  if v.1 = false then (portfolio, { success := false, message := v.2 })
  else
    match findPos portfolio.positions symbol with
    | none => (portfolio, { success := false, message := "No position" })
    | some position =>
      if position.quantity < quantity then
        (portfolio, { success := false, message := "Insufficient quantity" })
      else
        let trade_value := price * (quantity : ℚ)
        let cc := calculate_all_costs trade_value false
        let commission := cc.1
        let net_proceeds := trade_value - commission
        let tx : PositionTransaction :=
          { date := transaction_date, quantity := quantity, price := price
            transaction_type := .SELL, commission := commission }
        let position2 := position.add_transaction tx
        let cost_basis_sold := position2.avg_buy_price * (quantity : ℚ)
        let realized := trade_value - commission - cost_basis_sold
        ({ cash := portfolio.cash + net_proceeds
           positions := sellUpdate symbol price tx portfolio.positions
           realized_pnl := portfolio.realized_pnl + realized },
         { success := true, message := "Sold", executed_price := price
           quantity := quantity, total_cost := net_proceeds
           commission := commission, realized_pnl := realized
           cost_breakdown := some cc.2 })

/-! ### FIFO lot matching (`EnhancedPosition.get_fifo_sells`) -/

/-- An entry of the `buy_queue` maintained by `get_fifo_sells`. -/
structure BuyLot where
  index : ℕ
  quantity : ℤ
  price : ℚ
  remaining : ℤ
deriving DecidableEq, Repr

/-- One element of the result list of `get_fifo_sells`. -/
structure FifoMatch where
  buy_index : ℕ
  sell_index : ℕ
  quantity : ℤ
  pnl : ℚ
deriving DecidableEq, Repr

/-- The inner `while sell_quantity > 0 and buy_queue` loop of
`get_fifo_sells`: consume lots oldest-first, fully (pop) or partially,
emitting one match per consumed piece.  Returns the emitted matches and
the remaining queue. -/
def matchSell (sellIndex : ℕ) (sellPrice : ℚ) :
    ℤ → List BuyLot → List FifoMatch × List BuyLot
  | _, [] => ([], [])
  | s, lot :: rest =>
    if s ≤ 0 then ([], lot :: rest)
    else if lot.remaining ≤ s then
      let m : FifoMatch :=
        ⟨lot.index, sellIndex, lot.remaining,
          (lot.remaining : ℚ) * (sellPrice - lot.price)⟩
      let r := matchSell sellIndex sellPrice (s - lot.remaining) rest
      (m :: r.1, r.2)
    else
      ([⟨lot.index, sellIndex, s, (s : ℚ) * (sellPrice - lot.price)⟩],
        ({ lot with remaining := lot.remaining - s }) :: rest)

/-- The outer `for i, trans in enumerate(transactions)` loop of
`get_fifo_sells`: BUY transactions are appended to the queue with
`remaining = quantity`, SELL transactions are matched by `matchSell`.
Returns the accumulated matches and the final queue. -/
def fifoReplay : ℕ → List BuyLot → List PositionTransaction →
    List FifoMatch × List BuyLot
  | _, queue, [] => ([], queue)
  | counter, queue, t :: rest =>
    match t.transaction_type with
    | .BUY =>
      fifoReplay (counter + 1)
        (queue ++ [⟨counter, t.quantity, t.price, t.quantity⟩]) rest
    | .SELL =>
      let m := matchSell counter t.price t.quantity queue
      let r := fifoReplay (counter + 1) m.2 rest
      (m.1 ++ r.1, r.2)

/-- `EnhancedPosition.get_fifo_sells`. -/
def EnhancedPosition.get_fifo_sells (p : EnhancedPosition) :
    List FifoMatch :=
  (fifoReplay 0 [] p.transactions).1

/-- Total `remaining` quantity held in a buy queue. -/
def sumRemaining (queue : List BuyLot) : ℤ :=
  (queue.map (·.remaining)).sum

/-- Total matched quantity that a FIFO result list attributes to the sell
transaction at index `i`. -/
def matchedTo (results : List FifoMatch) (i : ℕ) : ℤ :=
  ((results.filter (fun r => r.sell_index == i)).map (·.quantity)).sum

/-! ### XIRR guard structure (`src/utils/xirr_calculator.py`)

The numerical core — `scipy.optimize.newton` on the equation
`f(r) = Σ amountᵢ / (1+r)^(daysᵢ/365.25)` evaluated in floating point —
is modelled by two oracle parameters: `newton g` is the root returned by
Newton's method started at guess `g` (`none` when it raises), and
`fAbs r` is the program's evaluation of `abs(xirr_equation(r))`.  The
guard structure around them (the sentinel cases, the tolerance and range
checks, the fallback guess list, the final `return 0.0`) is embedded from
the source. -/

/-- The `len(set(dates)) == 1` check: a nonempty flow list all of whose
dates equal the first. -/
def singleDate (cash_flows : List (ℕ × ℚ)) : Bool :=
  match cash_flows with
  | [] => false
  | cf :: rest => rest.all (fun d => d.1 == cf.1)

/-- Acceptance test applied to a value returned by Newton's method:
`abs(xirr_equation(result)) < tol`, then the range check
`-0.999 <= result <= 10`, returning `max(result, -0.999)`; any failed
check falls through (`none`). -/
def acceptRoot (fAbs : ℚ → ℚ) (tol r : ℚ) : Option ℚ :=
  if fAbs r < tol then
    if -(999 / 1000) ≤ r ∧ r ≤ 10 then some (max r (-(999 / 1000)))
    else none
  else none

/-- One attempt: run Newton from guess `g` (a raised exception is `none`)
and apply the acceptance test with tolerance `tol`. -/
def attemptGuess (newton : ℚ → Option ℚ) (fAbs : ℚ → ℚ) (tol g : ℚ) :
    Option ℚ :=
  match newton g with
  | none => none
  | some r => acceptRoot fAbs tol r

/-- The `for g in guess_list` loop: first accepted attempt wins. -/
def firstConverged (attempt : ℚ → Option ℚ) : List ℚ → Option ℚ
  | [] => none
  | g :: rest =>
    match attempt g with
    | some r => some r
    | none => firstConverged attempt rest

/-- The deterministic fallback guess list of `xirr`. -/
def fallbackGuesses : List ℚ :=
  [-(995/1000), -(99/100), -(98/100), -(97/100), -(95/100), -(93/100),
   -(90/100), -(85/100), -(80/100), -(75/100), -(70/100), -(65/100),
   -(60/100), -(55/100), -(50/100), -(45/100), -(40/100), -(35/100),
   -(30/100), -(25/100), -(20/100), -(15/100), -(10/100), -(5/100),
   -(1/100), 0, 1/100, 5/100, 10/100, 15/100, 20/100, 25/100, 30/100,
   40/100, 50/100, 75/100, 1, 3/2, 2, 3, 5, 8]

/-- `xirr`: the sentinel cases, the initial attempt with tolerance `1e-4`,
the fallback sweep with tolerance `1e-3`, and the final `return 0.0`. -/
def xirr (newton : ℚ → Option ℚ) (fAbs : ℚ → ℚ)
    (cash_flows : List (ℕ × ℚ)) (guess : ℚ) : ℚ :=
  if cash_flows.length < 2 then 0
  else if singleDate cash_flows then 0
  else
    match attemptGuess newton fAbs (1 / 10000) guess with
    | some r => r
    | none =>
      match firstConverged (attemptGuess newton fAbs (1 / 1000))
          fallbackGuesses with
      | some r => r
      | none => 0

/-! ### Trade sequences, for reachability statements -/

/-- One executor call. -/
inductive TradeOp where
  | buy (symbol : String) (quantity : ℤ) (price : ℚ) (tdate : ℕ)
  | sell (symbol : String) (quantity : ℤ) (price : ℚ) (tdate : ℕ)

/-- Apply one executor call to the portfolio, keeping the state part. -/
def applyTrade (pf : Portfolio) : TradeOp → Portfolio
  | .buy s q p d => (execute_buy pf s q p d).1
  | .sell s q p d => (execute_sell pf s q p d).1

/-- Run a sequence of executor calls. -/
def runTrades (pf : Portfolio) (ops : List TradeOp) : Portfolio :=
  ops.foldl applyTrade pf

/-- A fresh portfolio holding only cash. -/
def emptyPortfolio (cash : ℚ) : Portfolio :=
  ⟨cash, [], 0⟩

/-- The executor invariant: every held position has positive quantity and
symbols are pairwise distinct. -/
def goodPortfolio (pf : Portfolio) : Prop :=
  (∀ pos ∈ pf.positions, 0 < pos.quantity) ∧
    (pf.positions.map (·.symbol)).Nodup

/-! ## Helper lemmas -/

theorem quantity_add_transaction (p : EnhancedPosition) (t : PositionTransaction) :
    (p.add_transaction t).quantity = p.quantity + signedQuantity t := by
  simp [EnhancedPosition.add_transaction, EnhancedPosition.quantity]

theorem cost_basis_add_transaction (p : EnhancedPosition) (t : PositionTransaction) :
    (p.add_transaction t).cost_basis = p.cost_basis + costContribution t := by
  simp [EnhancedPosition.add_transaction, EnhancedPosition.cost_basis]

theorem total_bought_add_transaction (p : EnhancedPosition) (t : PositionTransaction) :
    (p.add_transaction t).total_bought_quantity =
      p.total_bought_quantity + boughtQuantity t := by
  simp [EnhancedPosition.add_transaction, EnhancedPosition.total_bought_quantity]

/-- A SELL transaction changes neither the cost basis nor the bought
quantity, hence not the average buy price. -/
theorem avg_buy_price_add_sell (p : EnhancedPosition) (t : PositionTransaction)
    (h : t.transaction_type = .SELL) :
    (p.add_transaction t).avg_buy_price = p.avg_buy_price := by
  simp [EnhancedPosition.avg_buy_price, total_bought_add_transaction,
    cost_basis_add_transaction, boughtQuantity, costContribution, h]

theorem validate_true_iff (s : String) (q : ℤ) (p : ℚ) :
    (validate_trade_inputs s q p).1 = true ↔
      (s ≠ "" ∧ 0 < q ∧ q ≤ 10000 ∧ 0 < p ∧ p ≤ 100000) := by
  unfold validate_trade_inputs
  split_ifs with h1 h2 h3 h4 h5 <;> simp_all

/-- Explicit form of a successful buy. -/
theorem execute_buy_success_eq (pf : Portfolio) (s : String) (q : ℤ) (p : ℚ) (d : ℕ)
    (hv : (validate_trade_inputs s q p).1 = true)
    (hc : ¬ pf.cash < p * (q : ℚ) + (calculate_all_costs (p * (q : ℚ)) true).1) :
    execute_buy pf s q p d =
      ({ cash := pf.cash - (p * (q : ℚ) + (calculate_all_costs (p * (q : ℚ)) true).1)
         positions := buyUpdate s p
           { date := d, quantity := q, price := p, transaction_type := .BUY
             commission := (calculate_all_costs (p * (q : ℚ)) true).1 } pf.positions
         realized_pnl := pf.realized_pnl },
       { success := true, message := "Bought", executed_price := p
         quantity := q
         total_cost := p * (q : ℚ) + (calculate_all_costs (p * (q : ℚ)) true).1
         commission := (calculate_all_costs (p * (q : ℚ)) true).1
         cost_breakdown := some (calculate_all_costs (p * (q : ℚ)) true).2 }) := by
  simp only [execute_buy, hv, Bool.true_eq_false, if_false, if_neg hc]

/-- Explicit form of a successful sell. -/
theorem execute_sell_success_eq (pf : Portfolio) (s : String) (q : ℤ) (p : ℚ) (d : ℕ)
    (pos : EnhancedPosition)
    (hv : (validate_trade_inputs s q p).1 = true)
    (hf : findPos pf.positions s = some pos)
    (hq : ¬ pos.quantity < q) :
    execute_sell pf s q p d =
      (let tx : PositionTransaction :=
        { date := d, quantity := q, price := p, transaction_type := .SELL
          commission := (calculate_all_costs (p * (q : ℚ)) false).1 }
       let realized := p * (q : ℚ) - (calculate_all_costs (p * (q : ℚ)) false).1 -
         (pos.add_transaction tx).avg_buy_price * (q : ℚ)
       ({ cash := pf.cash + (p * (q : ℚ) - (calculate_all_costs (p * (q : ℚ)) false).1)
          positions := sellUpdate s p tx pf.positions
          realized_pnl := pf.realized_pnl + realized },
        { success := true, message := "Sold", executed_price := p
          quantity := q
          total_cost := p * (q : ℚ) - (calculate_all_costs (p * (q : ℚ)) false).1
          commission := (calculate_all_costs (p * (q : ℚ)) false).1
          realized_pnl := realized
          cost_breakdown := some (calculate_all_costs (p * (q : ℚ)) false).2 })) := by
  simp only [execute_sell, hv, Bool.true_eq_false, if_false, hf, if_neg hq]

/-- A rejected buy leaves the portfolio untouched. -/
theorem execute_buy_reject (pf : Portfolio) (s : String) (q : ℤ) (p : ℚ) (d : ℕ)
    (h : (execute_buy pf s q p d).2.success = false) :
    (execute_buy pf s q p d).1 = pf := by
  simp only [execute_buy] at h ⊢
  split at h
  next hc => rw [if_pos hc]
  next hc =>
    rw [if_neg hc]
    split at h
    next hc2 => rw [if_pos hc2]
    next hc2 => simp at h

/-- A rejected sell leaves the portfolio untouched. -/
theorem execute_sell_reject (pf : Portfolio) (s : String) (q : ℤ) (p : ℚ) (d : ℕ)
    (h : (execute_sell pf s q p d).2.success = false) :
    (execute_sell pf s q p d).1 = pf := by
  simp only [execute_sell] at h ⊢
  split at h
  next hc => rw [if_pos hc]
  next hc =>
    rw [if_neg hc]
    split at h
    next heq => rfl
    next pos heq =>
      split at h
      next hq => rw [if_pos hq]
      next hq => simp at h

/-! ## Claims -/

/-- C1: for every successful `execute_buy`, `cash_before − cash_after`
equals exactly `trade_value + total` where `total` is the cost-model total
and `trade_value = price × quantity`; for every successful `execute_sell`,
`cash_after − cash_before` equals exactly `trade_value − total`. -/
theorem C1_cash_conservation (pf : Portfolio) (s : String) (q : ℤ) (p : ℚ) (d : ℕ) :
    ((execute_buy pf s q p d).2.success = true →
      pf.cash - (execute_buy pf s q p d).1.cash =
        p * (q : ℚ) + (calculate_all_costs (p * (q : ℚ)) true).1) ∧
    ((execute_sell pf s q p d).2.success = true →
      (execute_sell pf s q p d).1.cash - pf.cash =
        p * (q : ℚ) - (calculate_all_costs (p * (q : ℚ)) false).1) := by
  constructor
  · intro h
    simp only [execute_buy] at h ⊢
    split at h
    next hc => simp at h
    next hc =>
      rw [if_neg hc]
      split at h
      next hc2 => simp at h
      next hc2 => rw [if_neg hc2]; ring
  · intro h
    simp only [execute_sell] at h ⊢
    split at h
    next hc => simp at h
    next hc =>
      rw [if_neg hc]
      split at h
      next heq => simp at h
      next pos heq =>
        split at h
        next hq => simp at h
        next hq => rw [if_neg hq]; ring

/-- Witness for C1: a concrete successful buy (10 shares at 50 from a cash
portfolio) and a concrete successful sell (10 of 100 held shares at 50). -/
theorem C1_cash_conservation_witness :
    ((⟨1000000, [], 0⟩ : Portfolio).cash -
        (execute_buy ⟨1000000, [], 0⟩ "X" 10 50 0).1.cash =
      50 * ((10 : ℤ) : ℚ) + (calculate_all_costs (50 * ((10 : ℤ) : ℚ)) true).1) ∧
    ((execute_sell ⟨1000, [⟨"X", 50, [⟨0, 100, 50, .BUY, 0⟩]⟩], 0⟩ "X" 10 50 0).1.cash -
        (⟨1000, [⟨"X", 50, [⟨0, 100, 50, .BUY, 0⟩]⟩], 0⟩ : Portfolio).cash =
      50 * ((10 : ℤ) : ℚ) - (calculate_all_costs (50 * ((10 : ℤ) : ℚ)) false).1) := by
  constructor
  · refine (C1_cash_conservation ⟨1000000, [], 0⟩ "X" 10 50 0).1 ?_
    rw [execute_buy_success_eq ⟨1000000, [], 0⟩ "X" 10 50 0 (by decide) ?_]
    norm_num [calculate_all_costs, BROKERAGE_RATE, STT_RATE_BUY,
      EXCHANGE_CHARGES_RATE, SEBI_FEES_RATE, GST_RATE, min_def]
  · refine (C1_cash_conservation ⟨1000, [⟨"X", 50, [⟨0, 100, 50, .BUY, 0⟩]⟩], 0⟩
      "X" 10 50 0).2 ?_
    rw [execute_sell_success_eq ⟨1000, [⟨"X", 50, [⟨0, 100, 50, .BUY, 0⟩]⟩], 0⟩
      "X" 10 50 0 ⟨"X", 50, [⟨0, 100, 50, .BUY, 0⟩]⟩ (by decide) (by rfl) (by decide)]

/-- C2: every rejected `execute_buy` or `execute_sell` call leaves the
portfolio — cash, every position with its transaction list and derived
quantities, and `realized_pnl` — exactly as it was. -/
theorem C2_atomic_rejection (pf : Portfolio) (s : String) (q : ℤ) (p : ℚ) (d : ℕ) :
    ((execute_buy pf s q p d).2.success = false →
      (execute_buy pf s q p d).1 = pf) ∧
    ((execute_sell pf s q p d).2.success = false →
      (execute_sell pf s q p d).1 = pf) :=
  ⟨execute_buy_reject pf s q p d, execute_sell_reject pf s q p d⟩

/-- Witness for C2: a buy rejected for non-positive quantity and a sell
rejected for lack of a position leave the portfolio unchanged. -/
theorem C2_atomic_rejection_witness :
    (execute_buy ⟨500, [], 0⟩ "X" 0 50 0).1 = (⟨500, [], 0⟩ : Portfolio) ∧
    (execute_sell ⟨500, [], 0⟩ "X" 10 50 0).1 = (⟨500, [], 0⟩ : Portfolio) :=
  ⟨(C2_atomic_rejection ⟨500, [], 0⟩ "X" 0 50 0).1 rfl,
   (C2_atomic_rejection ⟨500, [], 0⟩ "X" 10 50 0).2 rfl⟩

/-- C3: the cost model computes brokerage `min(trade_value·0.0003, 20)`,
transaction tax `0` on buys and `trade_value·0.001` on sells, exchange fee
`trade_value·0.0000325`, consumption tax `0.18·(brokerage+exchange)`,
regulator fee `trade_value·0.000001`; the returned total is the exact
unrounded sum of the five, and rounding to two decimals appears only in
the reported breakdown. -/
theorem C3_cost_model (tv : ℚ) (h : 0 ≤ tv) (is_buy : Bool) :
    (calculate_all_costs tv is_buy).1 =
        min (tv * (3 / 10000)) 20 +
        (if is_buy then 0 else tv * (1 / 1000)) +
        tv * (325 / 10000000) +
        (18 / 100) * (min (tv * (3 / 10000)) 20 + tv * (325 / 10000000)) +
        tv * (1 / 1000000) ∧
    (calculate_all_costs tv is_buy).2.brokerage =
        roundTo2 (min (tv * (3 / 10000)) 20) ∧
    (calculate_all_costs tv is_buy).2.stt =
        roundTo2 (if is_buy then 0 else tv * (1 / 1000)) ∧
    (calculate_all_costs tv is_buy).2.exchange_charges =
        roundTo2 (tv * (325 / 10000000)) ∧
    (calculate_all_costs tv is_buy).2.gst =
        roundTo2 ((18 / 100) * (min (tv * (3 / 10000)) 20 + tv * (325 / 10000000))) ∧
    (calculate_all_costs tv is_buy).2.sebi_fees =
        roundTo2 (tv * (1 / 1000000)) ∧
    (calculate_all_costs tv is_buy).2.total =
        roundTo2 ((calculate_all_costs tv is_buy).1) := by
  cases is_buy <;>
    simp only [calculate_all_costs, BROKERAGE_RATE, STT_RATE_BUY, STT_RATE_SELL,
      EXCHANGE_CHARGES_RATE, GST_RATE, SEBI_FEES_RATE, if_true, if_false,
      Bool.false_eq_true] <;>
    refine ⟨by ring, by ring_nf, by ring_nf, by ring_nf, by ring_nf, by ring_nf, by ring_nf⟩

/-- Witness for C3 at `trade_value = 10000` on the buy side. -/
theorem C3_cost_model_witness :
    (0 : ℚ) ≤ 10000 ∧
    (calculate_all_costs 10000 true).1 =
        min ((10000 : ℚ) * (3 / 10000)) 20 +
        (if true then 0 else (10000 : ℚ) * (1 / 1000)) +
        10000 * (325 / 10000000) +
        (18 / 100) * (min ((10000 : ℚ) * (3 / 10000)) 20 + 10000 * (325 / 10000000)) +
        10000 * (1 / 1000000) := by
  refine ⟨by norm_num, ?_⟩
  exact (C3_cost_model 10000 (by norm_num) true).1

/-- Inversion of a successful buy: the validation passed and the cash
check passed. -/
theorem execute_buy_success_inv (pf : Portfolio) (s : String) (q : ℤ) (p : ℚ) (d : ℕ)
    (h : (execute_buy pf s q p d).2.success = true) :
    (validate_trade_inputs s q p).1 = true ∧
      ¬ pf.cash < p * (q : ℚ) + (calculate_all_costs (p * (q : ℚ)) true).1 := by
  simp only [execute_buy] at h
  split at h
  next hc => simp at h
  next hc =>
    split at h
    next hc2 => simp at h
    next hc2 => exact ⟨by simpa using hc, hc2⟩

/-- Inversion of a successful sell: the validation passed, a position was
found, and it held enough shares. -/
theorem execute_sell_success_inv (pf : Portfolio) (s : String) (q : ℤ) (p : ℚ) (d : ℕ)
    (h : (execute_sell pf s q p d).2.success = true) :
    (validate_trade_inputs s q p).1 = true ∧
      ∃ pos, findPos pf.positions s = some pos ∧ ¬ pos.quantity < q := by
  simp only [execute_sell] at h
  split at h
  next hc => simp at h
  next hc =>
    split at h
    next heq => simp at h
    next pos heq =>
      split at h
      next hq => simp at h
      next hq => exact ⟨by simpa using hc, pos, heq, hq⟩

/-- When no position carries the symbol, a buy appends a fresh position. -/
theorem buyUpdate_not_found (s : String) (p : ℚ) (tx : PositionTransaction)
    (ps : List EnhancedPosition) (h : findPos ps s = none) :
    buyUpdate s p tx ps = ps ++ [⟨s, p, [tx]⟩] := by
  induction ps with
  | nil => rfl
  | cons pos rest ih =>
    simp only [findPos] at h
    split at h
    next => exact absurd h (by simp)
    next hne => simp only [buyUpdate, if_neg hne, List.cons_append, ih h]

theorem findPos_append_of_none (ps : List EnhancedPosition)
    (newp : EnhancedPosition) (s : String) (h : findPos ps s = none) :
    findPos (ps ++ [newp]) s = findPos [newp] s := by
  induction ps with
  | nil => rfl
  | cons pos rest ih =>
    simp only [findPos] at h ⊢
    split at h
    next => exact absurd h (by simp)
    next hne => rw [if_neg hne]; exact ih h

/-- The cost-basis fold equals the sum over the BUY transactions only. -/
theorem cost_basis_as_filter (l : List PositionTransaction) :
    (l.map costContribution).sum =
      ((l.filter (fun t => t.transaction_type == TransactionType.BUY)).map
        (fun t => (t.quantity : ℚ) * t.price + t.commission)).sum := by
  induction l with
  | nil => rfl
  | cons t rest ih =>
    cases htype : t.transaction_type <;>
      simp [costContribution, htype, ih]

/-- C4: every ledger's `cost_basis` is the sum over its BUY transactions of
`quantity × price + commission`; consequently a single successful buy into
a portfolio with no position in that symbol creates a ledger whose
`cost_basis` equals exactly the cash that the buy deducted. -/
theorem C4_cost_basis (pos : EnhancedPosition) (pf : Portfolio) (s : String)
    (q : ℤ) (p : ℚ) (d : ℕ) :
    pos.cost_basis =
      ((pos.transactions.filter
          (fun t => t.transaction_type == TransactionType.BUY)).map
        (fun t => (t.quantity : ℚ) * t.price + t.commission)).sum ∧
    (findPos pf.positions s = none →
      (execute_buy pf s q p d).2.success = true →
      ∃ newPos, findPos (execute_buy pf s q p d).1.positions s = some newPos ∧
        newPos.cost_basis = pf.cash - (execute_buy pf s q p d).1.cash) := by
  constructor
  · exact cost_basis_as_filter pos.transactions
  · intro hnone hsucc
    obtain ⟨hv, hc⟩ := execute_buy_success_inv pf s q p d hsucc
    rw [execute_buy_success_eq pf s q p d hv hc]
    rw [buyUpdate_not_found s p _ pf.positions hnone]
    refine ⟨⟨s, p, [⟨d, q, p, .BUY, (calculate_all_costs (p * (q : ℚ)) true).1⟩]⟩,
      ?_, ?_⟩
    · rw [findPos_append_of_none pf.positions _ s hnone]
      simp [findPos]
    · simp only [EnhancedPosition.cost_basis, List.map_cons, List.map_nil,
        List.sum_cons, List.sum_nil, costContribution]
      ring

/-- Witness for C4: buying 10 shares at 50 into an empty portfolio yields a
ledger whose cost basis is the cash deducted. -/
theorem C4_cost_basis_witness :
    ∃ newPos,
      findPos (execute_buy ⟨1000000, [], 0⟩ "X" 10 50 0).1.positions "X" =
        some newPos ∧
      newPos.cost_basis =
        (⟨1000000, [], 0⟩ : Portfolio).cash -
          (execute_buy ⟨1000000, [], 0⟩ "X" 10 50 0).1.cash := by
  refine (C4_cost_basis ⟨"", 0, []⟩ ⟨1000000, [], 0⟩ "X" 10 50 0).2 rfl ?_
  rw [execute_buy_success_eq ⟨1000000, [], 0⟩ "X" 10 50 0 (by decide) ?_]
  norm_num [calculate_all_costs, BROKERAGE_RATE, STT_RATE_BUY,
    EXCHANGE_CHARGES_RATE, SEBI_FEES_RATE, GST_RATE, min_def]

/-- The first buy of the C5 scenario (100 shares at 100 from ₹10,00,000),
evaluated. -/
theorem c5_first_buy :
    (execute_buy ⟨1000000, [], 0⟩ "RELIANCE" 100 100 0) =
      (⟨1000000 - (100 * ((100 : ℤ) : ℚ) +
          (calculate_all_costs (100 * ((100 : ℤ) : ℚ)) true).1),
        [⟨"RELIANCE", 100, [⟨0, 100, 100, .BUY,
          (calculate_all_costs (100 * ((100 : ℤ) : ℚ)) true).1⟩]⟩], 0⟩,
       { success := true, message := "Bought", executed_price := 100
         quantity := 100
         total_cost := 100 * ((100 : ℤ) : ℚ) +
           (calculate_all_costs (100 * ((100 : ℤ) : ℚ)) true).1
         commission := (calculate_all_costs (100 * ((100 : ℤ) : ℚ)) true).1
         cost_breakdown := some (calculate_all_costs (100 * ((100 : ℤ) : ℚ)) true).2 }) := by
  rw [execute_buy_success_eq ⟨1000000, [], 0⟩ "RELIANCE" 100 100 0 (by decide) ?_]
  · simp [buyUpdate]
  · norm_num [calculate_all_costs, BROKERAGE_RATE, STT_RATE_BUY,
      EXCHANGE_CHARGES_RATE, SEBI_FEES_RATE, GST_RATE, min_def]

/-- The position list after the second buy of the C5 scenario (50 shares
at 120 on top of the first buy). -/
theorem c5_second_buy :
    (execute_buy (execute_buy ⟨1000000, [], 0⟩ "RELIANCE" 100 100 0).1
        "RELIANCE" 50 120 1).1.positions =
      [⟨"RELIANCE", 120,
        [⟨0, 100, 100, .BUY, (calculate_all_costs (100 * ((100 : ℤ) : ℚ)) true).1⟩,
         ⟨1, 50, 120, .BUY, (calculate_all_costs (120 * ((50 : ℤ) : ℚ)) true).1⟩]⟩] := by
  rw [c5_first_buy]
  rw [execute_buy_success_eq _ "RELIANCE" 50 120 1 (by decide) ?_]
  · simp [buyUpdate, EnhancedPosition.add_transaction]
  · norm_num [calculate_all_costs, BROKERAGE_RATE, STT_RATE_BUY,
      EXCHANGE_CHARGES_RATE, SEBI_FEES_RATE, GST_RATE, min_def]

/-- C5 counterexample: after the two successful buys 100 @ 100 and
50 @ 120 through the executor, the ledger's `avg_buy_price` is NOT the
commission-exclusive weighted average `(100·100 + 50·120)/150`; the
executor stores each buy's full cost-model total as the transaction's
commission, and the cost basis — hence the average — includes it
(actual value 6669289/62500 = 106.708624, not 16000/150 ≈ 106.667). -/
theorem C5_avg_counterexample :
    (execute_buy ⟨1000000, [], 0⟩ "RELIANCE" 100 100 0).2.success = true ∧
    (execute_buy (execute_buy ⟨1000000, [], 0⟩ "RELIANCE" 100 100 0).1
        "RELIANCE" 50 120 1).2.success = true ∧
    (findPos (execute_buy (execute_buy ⟨1000000, [], 0⟩ "RELIANCE" 100 100 0).1
        "RELIANCE" 50 120 1).1.positions "RELIANCE").map (·.avg_buy_price) ≠
      some ((100 * 100 + 50 * 120) / 150) := by
  refine ⟨by rw [c5_first_buy], ?_, ?_⟩
  · rw [c5_first_buy]
    rw [execute_buy_success_eq _ "RELIANCE" 50 120 1 (by decide) ?_]
    norm_num [calculate_all_costs, BROKERAGE_RATE, STT_RATE_BUY,
      EXCHANGE_CHARGES_RATE, SEBI_FEES_RATE, GST_RATE, min_def]
  · rw [c5_second_buy]
    simp only [findPos, if_pos rfl, Option.map_some, EnhancedPosition.avg_buy_price,
      EnhancedPosition.cost_basis, EnhancedPosition.total_bought_quantity,
      costContribution, boughtQuantity, List.map_cons, List.map_nil,
      List.sum_cons, List.sum_nil]
    norm_num [calculate_all_costs, BROKERAGE_RATE, STT_RATE_BUY,
      EXCHANGE_CHARGES_RATE, SEBI_FEES_RATE, GST_RATE, min_def,
      costContribution, boughtQuantity]

/-- C5 amended: after the two successful buys 100 @ 100 and 50 @ 120, the
ledger's `avg_buy_price` equals the commission-INCLUSIVE weighted average
`(100·100 + 50·120 + c₁ + c₂)/150`, where `c₁`, `c₂` are the cost-model
totals of the two buys (`avg_buy_price = cost_basis / Σ bought`, and the
cost basis includes each buy's commission). -/
theorem C5_avg_amended :
    (execute_buy ⟨1000000, [], 0⟩ "RELIANCE" 100 100 0).2.success = true ∧
    (execute_buy (execute_buy ⟨1000000, [], 0⟩ "RELIANCE" 100 100 0).1
        "RELIANCE" 50 120 1).2.success = true ∧
    (findPos (execute_buy (execute_buy ⟨1000000, [], 0⟩ "RELIANCE" 100 100 0).1
        "RELIANCE" 50 120 1).1.positions "RELIANCE").map (·.avg_buy_price) =
      some ((100 * 100 + 50 * 120 +
        (calculate_all_costs (100 * ((100 : ℤ) : ℚ)) true).1 +
        (calculate_all_costs (120 * ((50 : ℤ) : ℚ)) true).1) / 150) := by
  refine ⟨by rw [c5_first_buy], ?_, ?_⟩
  · rw [c5_first_buy]
    rw [execute_buy_success_eq _ "RELIANCE" 50 120 1 (by decide) ?_]
    norm_num [calculate_all_costs, BROKERAGE_RATE, STT_RATE_BUY,
      EXCHANGE_CHARGES_RATE, SEBI_FEES_RATE, GST_RATE, min_def]
  · rw [c5_second_buy]
    simp only [findPos, if_pos rfl, Option.map_some, EnhancedPosition.avg_buy_price,
      EnhancedPosition.cost_basis, EnhancedPosition.total_bought_quantity,
      costContribution, boughtQuantity, List.map_cons, List.map_nil,
      List.sum_cons, List.sum_nil]
    norm_num [calculate_all_costs, BROKERAGE_RATE, STT_RATE_BUY,
      EXCHANGE_CHARGES_RATE, SEBI_FEES_RATE, GST_RATE, min_def,
      costContribution, boughtQuantity]

/-- The sell-side total strictly exceeds the buy-side total for positive
trade value: the transaction tax applies only to sells. -/
theorem sell_cost_gt_buy_cost (tv : ℚ) (h : 0 < tv) :
    (calculate_all_costs tv true).1 < (calculate_all_costs tv false).1 := by
  have h2 : 0 < tv * (1 / 1000) := by positivity
  simp only [calculate_all_costs, STT_RATE_BUY, STT_RATE_SELL, if_true,
    Bool.false_eq_true, if_false]
  linarith

/-- C6: buying `q` at `p` into a portfolio with no position in the symbol
and then selling the same `q` at the same `p` decreases cash by exactly
the sum of the two cost-model totals, adds exactly the negation of that
sum to `realized_pnl`, and the sell-side total strictly exceeds the
buy-side total (asymmetric transaction tax). -/
theorem C6_round_trip (pf : Portfolio) (s : String) (q : ℤ) (p : ℚ) (d : ℕ)
    (hs : s ≠ "") (hq0 : 0 < q) (hq1 : q ≤ 10000) (hp0 : 0 < p) (hp1 : p ≤ 100000)
    (hfresh : findPos pf.positions s = none)
    (hcash : ¬ pf.cash < p * (q : ℚ) + (calculate_all_costs (p * (q : ℚ)) true).1) :
    (execute_buy pf s q p d).2.success = true ∧
    (execute_sell (execute_buy pf s q p d).1 s q p d).2.success = true ∧
    pf.cash - (execute_sell (execute_buy pf s q p d).1 s q p d).1.cash =
      (calculate_all_costs (p * (q : ℚ)) true).1 +
        (calculate_all_costs (p * (q : ℚ)) false).1 ∧
    (execute_sell (execute_buy pf s q p d).1 s q p d).1.realized_pnl -
        pf.realized_pnl =
      -((calculate_all_costs (p * (q : ℚ)) true).1 +
        (calculate_all_costs (p * (q : ℚ)) false).1) ∧
    (calculate_all_costs (p * (q : ℚ)) true).1 <
      (calculate_all_costs (p * (q : ℚ)) false).1 := by
  have hv : (validate_trade_inputs s q p).1 = true :=
    (validate_true_iff s q p).2 ⟨hs, hq0, hq1, hp0, hp1⟩
  have hqQ : ((q : ℚ)) ≠ 0 := by
    exact_mod_cast (by omega : q ≠ 0)
  rw [execute_buy_success_eq pf s q p d hv hcash,
    buyUpdate_not_found s p _ pf.positions hfresh]
  have hfind : findPos (pf.positions ++
      [⟨s, p, [⟨d, q, p, .BUY, (calculate_all_costs (p * (q : ℚ)) true).1⟩]⟩]) s =
      some ⟨s, p, [⟨d, q, p, .BUY, (calculate_all_costs (p * (q : ℚ)) true).1⟩]⟩ := by
    rw [findPos_append_of_none _ _ _ hfresh]
    simp [findPos]
  have hqty : (⟨s, p, [⟨d, q, p, .BUY, (calculate_all_costs (p * (q : ℚ)) true).1⟩]⟩ :
      EnhancedPosition).quantity = q := by
    simp [EnhancedPosition.quantity, signedQuantity]
  rw [execute_sell_success_eq _ s q p d _ hv hfind (by rw [hqty]; omega)]
  have havg : ((⟨s, p, [⟨d, q, p, .BUY,
        (calculate_all_costs (p * (q : ℚ)) true).1⟩]⟩ : EnhancedPosition).add_transaction
        ⟨d, q, p, .SELL, (calculate_all_costs (p * (q : ℚ)) false).1⟩).avg_buy_price *
        (q : ℚ) = (q : ℚ) * p + (calculate_all_costs (p * (q : ℚ)) true).1 := by
    rw [avg_buy_price_add_sell _ _ rfl]
    simp only [EnhancedPosition.avg_buy_price, EnhancedPosition.cost_basis,
      EnhancedPosition.total_bought_quantity, List.map_cons, List.map_nil,
      List.sum_cons, List.sum_nil, costContribution, boughtQuantity, add_zero]
    rw [if_pos (by omega : (0 : ℤ) < q)]
    field_simp
  refine ⟨rfl, rfl, by ring, ?_, sell_cost_gt_buy_cost _ (by positivity)⟩
  simp only [havg]
  ring

/-- Witness for C6: round trip of 100 shares at 100 from ₹1,00,000 cash. -/
theorem C6_round_trip_witness :
    (execute_buy ⟨100000, [], 0⟩ "TCS" 100 100 0).2.success = true ∧
    (execute_sell (execute_buy ⟨100000, [], 0⟩ "TCS" 100 100 0).1
        "TCS" 100 100 0).2.success = true ∧
    (⟨100000, [], 0⟩ : Portfolio).cash -
        (execute_sell (execute_buy ⟨100000, [], 0⟩ "TCS" 100 100 0).1
          "TCS" 100 100 0).1.cash =
      (calculate_all_costs (100 * ((100 : ℤ) : ℚ)) true).1 +
        (calculate_all_costs (100 * ((100 : ℤ) : ℚ)) false).1 ∧
    (execute_sell (execute_buy ⟨100000, [], 0⟩ "TCS" 100 100 0).1
          "TCS" 100 100 0).1.realized_pnl -
        (⟨100000, [], 0⟩ : Portfolio).realized_pnl =
      -((calculate_all_costs (100 * ((100 : ℤ) : ℚ)) true).1 +
        (calculate_all_costs (100 * ((100 : ℤ) : ℚ)) false).1) ∧
    (calculate_all_costs (100 * ((100 : ℤ) : ℚ)) true).1 <
      (calculate_all_costs (100 * ((100 : ℤ) : ℚ)) false).1 :=
  C6_round_trip ⟨100000, [], 0⟩ "TCS" 100 100 0 (by decide) (by decide) (by decide)
    (by norm_num) (by norm_num) rfl
    (by norm_num [calculate_all_costs, BROKERAGE_RATE, STT_RATE_BUY,
      EXCHANGE_CHARGES_RATE, SEBI_FEES_RATE, GST_RATE, min_def])


theorem acceptRoot_some (fAbs : ℚ → ℚ) (tol r r2 : ℚ)
    (h : acceptRoot fAbs tol r = some r2) :
    r2 = r ∧ fAbs r2 < tol ∧ -(999 / 1000) ≤ r2 ∧ r2 ≤ 10 := by
  unfold acceptRoot at h
  split at h
  next h1 =>
    split at h
    next h2 =>
      obtain ⟨hlo, hhi⟩ := h2
      have hr : r2 = r := by
        have := Option.some.inj h
        rw [← this, max_eq_left hlo]
      subst hr
      exact ⟨rfl, h1, hlo, hhi⟩
    next => exact absurd h (by simp)
  next => exact absurd h (by simp)

theorem attemptGuess_some (newton : ℚ → Option ℚ) (fAbs : ℚ → ℚ) (tol g r2 : ℚ)
    (h : attemptGuess newton fAbs tol g = some r2) :
    fAbs r2 < tol ∧ -(999 / 1000) ≤ r2 ∧ r2 ≤ 10 := by
  unfold attemptGuess at h
  split at h
  next => exact absurd h (by simp)
  next r hr => exact (acceptRoot_some fAbs tol r r2 h).2

theorem firstConverged_some (f : ℚ → Option ℚ) (gs : List ℚ) (r : ℚ)
    (h : firstConverged f gs = some r) : ∃ g, f g = some r := by
  induction gs with
  | nil => exact absurd h (by simp [firstConverged])
  | cons g rest ih =>
    simp only [firstConverged] at h
    split at h
    next r2 hg => exact ⟨g, by rw [hg, Option.some.inj h]⟩
    next => exact ih h

theorem C7_xirr_guards (newton : ℚ → Option ℚ) (fAbs : ℚ → ℚ)
    (flows : List (ℕ × ℚ)) (guess : ℚ) :
    ((flows.length < 2 ∨ singleDate flows = true) →
      xirr newton fAbs flows guess = 0) ∧
    (∀ r, newton guess = some r → fAbs r < 1 / 10000 →
      -(999 / 1000) ≤ r → r ≤ 10 → ¬ flows.length < 2 →
      singleDate flows = false → xirr newton fAbs flows guess = r) ∧
    (xirr newton fAbs flows guess = 0 ∨
      (fAbs (xirr newton fAbs flows guess) < 1 / 1000 ∧
        -(999 / 1000) ≤ xirr newton fAbs flows guess ∧
        xirr newton fAbs flows guess ≤ 10)) := by
  refine ⟨?_, ?_, ?_⟩
  · rintro (h | h)
    · unfold xirr; rw [if_pos h]
    · unfold xirr
      by_cases h2 : flows.length < 2
      · rw [if_pos h2]
      · rw [if_neg h2, if_pos h]
  · intro r hn hf hlo hhi hlen hsd
    unfold xirr
    rw [if_neg hlen, if_neg (by simp [hsd])]
    have hacc : acceptRoot fAbs (1 / 10000) r = some r := by
      unfold acceptRoot
      rw [if_pos hf, if_pos ⟨hlo, hhi⟩, max_eq_left hlo]
    have hatt : attemptGuess newton fAbs (1 / 10000) guess = some r := by
      unfold attemptGuess
      rw [hn]
      exact hacc
    rw [hatt]
  · by_cases h1 : flows.length < 2
    · left; unfold xirr; rw [if_pos h1]
    · by_cases h2 : singleDate flows = true
      · left; unfold xirr; rw [if_neg h1, if_pos h2]
      · unfold xirr
        rw [if_neg h1, if_neg h2]
        cases hatt : attemptGuess newton fAbs (1 / 10000) guess with
        | some r =>
          right
          obtain ⟨hf, hlo, hhi⟩ := attemptGuess_some newton fAbs _ _ _ hatt
          exact ⟨lt_trans hf (by norm_num), hlo, hhi⟩
        | none =>
          cases hfc : firstConverged (attemptGuess newton fAbs (1 / 1000))
              fallbackGuesses with
          | some r =>
            right
            obtain ⟨g, hg⟩ := firstConverged_some _ _ _ hfc
            exact attemptGuess_some newton fAbs _ _ _ hg
          | none => left; rfl

theorem C7_xirr_guards_witness :
    xirr (fun _ => none) (fun _ => 0) [(0, -100)] (1 / 10) = 0 ∧
    xirr (fun _ => some (1 / 2)) (fun _ => 0) [(0, -100), (5, 200)] (1 / 10) = 1 / 2 := by
  constructor
  · exact (C7_xirr_guards (fun _ => none) (fun _ => 0) [(0, -100)] (1 / 10)).1
      (Or.inl (by decide))
  · exact (C7_xirr_guards (fun _ => some (1 / 2)) (fun _ => 0)
      [(0, -100), (5, 200)] (1 / 10)).2.1 (1 / 2) rfl (by norm_num) (by norm_num)
      (by norm_num) (by decide) (by decide)


theorem quantity_ignores_price (p : EnhancedPosition) (cp : ℚ) :
    ({ p with current_price := cp } : EnhancedPosition).quantity = p.quantity := rfl

theorem findPos_eq_none_iff (ps : List EnhancedPosition) (s : String) :
    findPos ps s = none ↔ s ∉ ps.map (·.symbol) := by
  induction ps with
  | nil => simp [findPos]
  | cons head rest ih =>
    simp only [findPos, List.map_cons, List.mem_cons]
    split
    next heq => simp [heq]
    next hne =>
      rw [ih]
      simp only [not_or]
      constructor
      · intro h; exact ⟨fun he => hne he.symm, h⟩
      · intro h; exact h.2

theorem buyUpdate_pos_quantity (s : String) (p : ℚ) (tx : PositionTransaction)
    (ps : List EnhancedPosition)
    (hps : ∀ x ∈ ps, 0 < x.quantity)
    (htx : 0 < tx.quantity) (hbuy : tx.transaction_type = .BUY) :
    ∀ x ∈ buyUpdate s p tx ps, 0 < x.quantity := by
  induction ps with
  | nil =>
    intro x hx
    simp only [buyUpdate, List.mem_singleton] at hx
    subst hx
    simp [EnhancedPosition.quantity, signedQuantity, hbuy, htx]
  | cons head rest ih =>
    intro x hx
    simp only [buyUpdate] at hx
    split at hx
    next heq =>
      rcases List.mem_cons.1 hx with h | h
      · subst h
        rw [quantity_ignores_price, quantity_add_transaction]
        have := hps head (by simp)
        simp only [signedQuantity, hbuy]
        omega
      · exact hps x (by simp [h])
    next hne =>
      rcases List.mem_cons.1 hx with h | h
      · subst h; exact hps x (by simp)
      · exact ih (fun y hy => hps y (by simp [hy])) x h

theorem buyUpdate_symbols_of_found (s : String) (p : ℚ) (tx : PositionTransaction)
    (ps : List EnhancedPosition) (pos : EnhancedPosition)
    (hf : findPos ps s = some pos) :
    (buyUpdate s p tx ps).map (·.symbol) = ps.map (·.symbol) := by
  induction ps with
  | nil => simp [findPos] at hf
  | cons head rest ih =>
    simp only [findPos] at hf
    simp only [buyUpdate]
    split at hf
    next heq => simp only [if_pos heq, List.map_cons]; rfl
    next hne => simp only [if_neg hne, List.map_cons, ih hf]

theorem sellUpdate_symbols_sublist (s : String) (p : ℚ) (tx : PositionTransaction)
    (ps : List EnhancedPosition) :
    ((sellUpdate s p tx ps).map (·.symbol)).Sublist (ps.map (·.symbol)) := by
  induction ps with
  | nil => simp [sellUpdate]
  | cons head rest ih =>
    simp only [sellUpdate]
    split
    next heq =>
      split
      next => exact (List.map _ rest).sublist_cons_self _ |>.trans (List.Sublist.refl _)
      next => simp only [List.map_cons]; exact List.Sublist.cons₂ _ (List.Sublist.refl _)
    next hne => simp only [List.map_cons]; exact List.Sublist.cons₂ _ ih

theorem sellUpdate_pos_quantity (s : String) (p : ℚ) (tx : PositionTransaction)
    (ps : List EnhancedPosition) (pos : EnhancedPosition)
    (hps : ∀ x ∈ ps, 0 < x.quantity)
    (hf : findPos ps s = some pos)
    (hsell : tx.transaction_type = .SELL)
    (hq : tx.quantity ≤ pos.quantity) :
    ∀ x ∈ sellUpdate s p tx ps, 0 < x.quantity := by
  induction ps with
  | nil => simp [sellUpdate]
  | cons head rest ih =>
    intro x hx
    simp only [findPos] at hf
    simp only [sellUpdate] at hx
    split at hx
    next heq =>
      rw [if_pos heq] at hf
      have hpos : pos = head := by
        have := Option.some.inj hf
        exact this.symm
      subst hpos
      split at hx
      next hz => exact hps x (by simp [hx])
      next hz =>
        rcases List.mem_cons.1 hx with h | h
        · subst h
          rw [quantity_ignores_price] at hz ⊢
          rw [quantity_add_transaction] at hz ⊢
          simp only [signedQuantity, hsell] at hz ⊢
          omega
        · exact hps x (by simp [h])
    next hne =>
      rw [if_neg hne] at hf
      rcases List.mem_cons.1 hx with h | h
      · subst h; exact hps x (by simp)
      · exact ih (fun y hy => hps y (by simp [hy])) hf x h

theorem sellUpdate_full_removes (s : String) (p : ℚ) (tx : PositionTransaction)
    (ps : List EnhancedPosition) (pos : EnhancedPosition)
    (hnodup : (ps.map (·.symbol)).Nodup)
    (hf : findPos ps s = some pos)
    (hzero : (pos.add_transaction tx).quantity = 0) :
    findPos (sellUpdate s p tx ps) s = none := by
  induction ps with
  | nil => simp [sellUpdate, findPos]
  | cons head rest ih =>
    simp only [findPos] at hf
    simp only [sellUpdate]
    split at hf
    next heq =>
      have hpos : pos = head := (Option.some.inj hf).symm
      subst hpos
      rw [if_pos heq]
      have hz : (pos.add_transaction tx).quantity = 0 := hzero
      rw [if_pos hz]
      rw [findPos_eq_none_iff]
      simp only [List.map_cons, List.nodup_cons] at hnodup
      rw [← heq]
      exact hnodup.1
    next hne =>
      rw [if_neg hne]
      simp only [findPos, if_neg hne]
      exact ih (by simp only [List.map_cons, List.nodup_cons] at hnodup; exact hnodup.2) hf


theorem goodPortfolio_empty (cash : ℚ) : goodPortfolio (emptyPortfolio cash) :=
  ⟨by simp [emptyPortfolio], by simp [emptyPortfolio]⟩

theorem goodPortfolio_buy (pf : Portfolio) (s : String) (q : ℤ) (p : ℚ) (d : ℕ)
    (hg : goodPortfolio pf) : goodPortfolio (execute_buy pf s q p d).1 := by
  cases hsucc : (execute_buy pf s q p d).2.success with
  | false => rw [execute_buy_reject pf s q p d hsucc]; exact hg
  | true =>
    obtain ⟨hv, hc⟩ := execute_buy_success_inv pf s q p d hsucc
    obtain ⟨hs, hq0, hq1, hp0, hp1⟩ := (validate_true_iff s q p).1 hv
    rw [execute_buy_success_eq pf s q p d hv hc]
    constructor
    · exact buyUpdate_pos_quantity s p _ pf.positions hg.1 hq0 rfl
    · cases hfp : findPos pf.positions s with
      | none =>
        rw [buyUpdate_not_found s p _ pf.positions hfp]
        simp only [List.map_append, List.map_cons, List.map_nil]
        rw [List.nodup_append]
        refine ⟨hg.2, List.nodup_singleton s, ?_⟩
        intro a ha hb
        simp only [List.mem_singleton] at hb
        subst hb
        exact (findPos_eq_none_iff _ _).1 hfp ha
      | some pos =>
        rw [buyUpdate_symbols_of_found s p _ pf.positions pos hfp]
        exact hg.2

theorem goodPortfolio_sell (pf : Portfolio) (s : String) (q : ℤ) (p : ℚ) (d : ℕ)
    (hg : goodPortfolio pf) : goodPortfolio (execute_sell pf s q p d).1 := by
  cases hsucc : (execute_sell pf s q p d).2.success with
  | false => rw [execute_sell_reject pf s q p d hsucc]; exact hg
  | true =>
    obtain ⟨hv, pos, hf, hq⟩ := execute_sell_success_inv pf s q p d hsucc
    rw [execute_sell_success_eq pf s q p d pos hv hf hq]
    constructor
    · exact sellUpdate_pos_quantity s p _ pf.positions pos hg.1 hf rfl (not_lt.1 hq)
    · exact (sellUpdate_symbols_sublist s p _ pf.positions).nodup hg.2

theorem goodPortfolio_applyTrade (pf : Portfolio) (op : TradeOp)
    (hg : goodPortfolio pf) : goodPortfolio (applyTrade pf op) := by
  cases op with
  | buy s q p d => exact goodPortfolio_buy pf s q p d hg
  | sell s q p d => exact goodPortfolio_sell pf s q p d hg

theorem goodPortfolio_runTrades (pf : Portfolio) (ops : List TradeOp)
    (hg : goodPortfolio pf) : goodPortfolio (runTrades pf ops) := by
  induction ops generalizing pf with
  | nil => exact hg
  | cons op rest ih =>
    exact ih (applyTrade pf op) (goodPortfolio_applyTrade pf op hg)

/-- C8: in every portfolio reachable from an empty portfolio by executor
calls, every ledger present has strictly positive quantity; and a
successful sell of a ledger's entire remaining quantity removes that
symbol's ledger from the positions. -/
theorem C8_position_closure :
    (∀ (cash : ℚ) (ops : List TradeOp) (pos : EnhancedPosition),
      pos ∈ (runTrades (emptyPortfolio cash) ops).positions →
        0 < pos.quantity) ∧
    (∀ (cash : ℚ) (ops : List TradeOp) (s : String) (q : ℤ) (p : ℚ) (d : ℕ)
        (pos : EnhancedPosition),
      findPos (runTrades (emptyPortfolio cash) ops).positions s = some pos →
      q = pos.quantity →
      (execute_sell (runTrades (emptyPortfolio cash) ops) s q p d).2.success = true →
      findPos (execute_sell (runTrades (emptyPortfolio cash) ops) s q p d).1.positions
        s = none) := by
  have hgood : ∀ (cash : ℚ) (ops : List TradeOp),
      goodPortfolio (runTrades (emptyPortfolio cash) ops) :=
    fun cash ops => goodPortfolio_runTrades _ ops (goodPortfolio_empty cash)
  constructor
  · intro cash ops pos hm
    exact (hgood cash ops).1 pos hm
  · intro cash ops s q p d pos hf hq hsucc
    obtain ⟨hv, pos2, hf2, hq2⟩ := execute_sell_success_inv _ s q p d hsucc
    have hpos : pos = pos2 := by
      rw [hf] at hf2
      exact Option.some.inj hf2
    subst hpos
    rw [execute_sell_success_eq _ s q p d pos hv hf2 hq2]
    refine sellUpdate_full_removes s p _ _ pos (hgood cash ops).2 hf2 ?_
    rw [quantity_add_transaction]
    simp only [signedQuantity]
    omega

/-- Evaluation of the one-buy run used by the C8 witness. -/
theorem c8_run_eval :
    runTrades (emptyPortfolio 100000) [TradeOp.buy "A" 10 5 0] =
      ⟨100000 - (5 * ((10 : ℤ) : ℚ) + (calculate_all_costs (5 * ((10 : ℤ) : ℚ)) true).1),
       [⟨"A", 5, [⟨0, 10, 5, .BUY, (calculate_all_costs (5 * ((10 : ℤ) : ℚ)) true).1⟩]⟩],
       0⟩ := by
  simp only [runTrades, List.foldl, applyTrade, emptyPortfolio]
  rw [execute_buy_success_eq ⟨100000, [], 0⟩ "A" 10 5 0 (by decide) ?_]
  · simp [buyUpdate]
  · norm_num [calculate_all_costs, BROKERAGE_RATE, STT_RATE_BUY,
      EXCHANGE_CHARGES_RATE, SEBI_FEES_RATE, GST_RATE, min_def]

/-- Witness for C8: one buy of 10 shares then a full sell of 10 removes
the ledger. -/
theorem C8_position_closure_witness :
    (0 : ℤ) < (⟨"A", 5, [⟨0, 10, 5, .BUY,
        (calculate_all_costs (5 * ((10 : ℤ) : ℚ)) true).1⟩]⟩ : EnhancedPosition).quantity ∧
    findPos (execute_sell (runTrades (emptyPortfolio 100000) [TradeOp.buy "A" 10 5 0])
        "A" 10 5 1).1.positions "A" = none := by
  constructor
  · refine C8_position_closure.1 100000 [TradeOp.buy "A" 10 5 0] _ ?_
    rw [c8_run_eval]
    simp
  · refine C8_position_closure.2 100000 [TradeOp.buy "A" 10 5 0] "A" 10 5 1
      ⟨"A", 5, [⟨0, 10, 5, .BUY, (calculate_all_costs (5 * ((10 : ℤ) : ℚ)) true).1⟩]⟩
      ?_ ?_ ?_
    · rw [c8_run_eval]
      simp [findPos]
    · simp [EnhancedPosition.quantity, signedQuantity]
    · rw [c8_run_eval]
      rw [execute_sell_success_eq _ "A" 10 5 1
        ⟨"A", 5, [⟨0, 10, 5, .BUY, (calculate_all_costs (5 * ((10 : ℤ) : ℚ)) true).1⟩]⟩
        (by decide) (by simp [findPos]) (by simp [EnhancedPosition.quantity, signedQuantity])]



/-- Every match emitted by the inner sell loop carries the current sell
index and the index, price-difference P&L of some lot of the queue. -/
theorem matchSell_results_mem (i : ℕ) (sp : ℚ) :
    ∀ (queue : List BuyLot) (s : ℤ), ∀ m ∈ (matchSell i sp s queue).1,
      m.sell_index = i ∧ ∃ lot ∈ queue, m.buy_index = lot.index ∧
        m.pnl = (m.quantity : ℚ) * (sp - lot.price) := by
  intro queue
  induction queue with
  | nil => intro s m hm; simp [matchSell] at hm
  | cons lot rest ih =>
    intro s m hm
    simp only [matchSell] at hm
    split at hm
    next => simp at hm
    next hs =>
      split at hm
      next hrem =>
        rcases List.mem_cons.1 hm with h | h
        · subst h
          exact ⟨rfl, lot, by simp, rfl, rfl⟩
        · obtain ⟨h1, lot2, h2, h3, h4⟩ := ih (s - lot.remaining) m h
          exact ⟨h1, lot2, by simp [h2], h3, h4⟩
      next hrem =>
        simp only [List.mem_singleton] at hm
        subst hm
        exact ⟨rfl, lot, by simp, rfl, rfl⟩

/-- Lots surviving the inner sell loop keep their index and price. -/
theorem matchSell_queue_mem (i : ℕ) (sp : ℚ) :
    ∀ (queue : List BuyLot) (s : ℤ), ∀ lot2 ∈ (matchSell i sp s queue).2,
      ∃ lot ∈ queue, lot2.index = lot.index ∧ lot2.price = lot.price := by
  intro queue
  induction queue with
  | nil => intro s lot2 h; simp [matchSell] at h
  | cons lot rest ih =>
    intro s lot2 h
    simp only [matchSell] at h
    split at h
    next =>
      rcases List.mem_cons.1 h with h2 | h2
      · exact ⟨lot, by simp, by rw [h2], by rw [h2]⟩
      · exact ⟨lot2, by simp [h2], rfl, rfl⟩
    next hs =>
      split at h
      next hrem =>
        obtain ⟨lot3, h1, h2, h3⟩ := ih (s - lot.remaining) lot2 h
        exact ⟨lot3, by simp [h1], h2, h3⟩
      next hrem =>
        rcases List.mem_cons.1 h with h2 | h2
        · exact ⟨lot, by simp, by rw [h2], by rw [h2]⟩
        · exact ⟨lot2, by simp [h2], rfl, rfl⟩

/-- Every match of the FIFO replay pairs an earlier BUY transaction with a
later SELL transaction and reports `quantity * (sell price - buy price)`
as its P&L. -/
theorem fifoReplay_results_spec (full : List PositionTransaction) :
    ∀ (txs : List PositionTransaction) (i : ℕ) (queue : List BuyLot),
      List.drop i full = txs →
      (∀ lot ∈ queue, lot.index < i ∧ ∃ bt, full[lot.index]? = some bt ∧
        bt.transaction_type = .BUY ∧ lot.price = bt.price) →
      ∀ r ∈ (fifoReplay i queue txs).1,
        ∃ bt st, full[r.buy_index]? = some bt ∧ full[r.sell_index]? = some st ∧
          bt.transaction_type = .BUY ∧ st.transaction_type = .SELL ∧
          r.buy_index < r.sell_index ∧
          r.pnl = (r.quantity : ℚ) * (st.price - bt.price) := by
  intro txs
  induction txs with
  | nil => intro i queue hdrop hinv r hr; simp [fifoReplay] at hr
  | cons t rest ih =>
    intro i queue hdrop hinv r hr
    have hti : full[i]? = some t := by
      have h0 : (full.drop i)[0]? = full[i + 0]? := List.getElem?_drop full i 0
      rw [hdrop] at h0
      simpa using h0.symm
    have hdrop2 : List.drop (i + 1) full = rest := by
      have h1 : (full.drop i).drop 1 = full.drop (i + 1) := List.drop_drop 1 i full
      rw [hdrop] at h1
      simpa using h1.symm
    cases htype : t.transaction_type with
    | BUY =>
      simp only [fifoReplay, htype] at hr
      refine ih (i + 1) (queue ++ [⟨i, t.quantity, t.price, t.quantity⟩]) hdrop2 ?_ r hr
      intro lot hlot
      rcases List.mem_append.1 hlot with h | h
      · obtain ⟨hlt, bt, hbt⟩ := hinv lot h
        exact ⟨by omega, bt, hbt⟩
      · simp only [List.mem_singleton] at h
        subst h
        exact ⟨Nat.lt_succ_self i, t, hti, htype, rfl⟩
    | SELL =>
      simp only [fifoReplay, htype] at hr
      rcases List.mem_append.1 hr with h | h
      · obtain ⟨hsi, lot, hlot, hbi, hpnl⟩ := matchSell_results_mem i t.price queue t.quantity r h
        obtain ⟨hlt, bt, hbt1, hbt2, hbt3⟩ := hinv lot hlot
        refine ⟨bt, t, ?_, ?_, hbt2, htype, ?_, ?_⟩
        · rw [hbi]; exact hbt1
        · rw [hsi]; exact hti
        · omega
        · rw [hpnl, hbt3]
      · refine ih (i + 1) (matchSell i t.price t.quantity queue).2 hdrop2 ?_ r h
        intro lot hlot
        obtain ⟨lot2, hl2, hidx, hpr⟩ := matchSell_queue_mem i t.price queue t.quantity lot hlot
        obtain ⟨hlt, bt, hbt1, hbt2, hbt3⟩ := hinv lot2 hl2
        exact ⟨by omega, bt, by rw [hidx]; exact hbt1, hbt2, by rw [hpr]; exact hbt3⟩


/-- C9: `get_fifo_sells` consumes BUY lots oldest-first; concretely, buys
of 100 @ 100 and 50 @ 110 followed by a sell of 120 @ 120 yield exactly
two matches, 100 shares of lot 0 with P&L 100·20 and 20 shares of lot 1
with P&L 20·10; in general each emitted match pairs an earlier BUY with a
later SELL and has `pnl = quantity × (sell price − lot price)`. -/
theorem C9_fifo_matching (p : EnhancedPosition) :
    (EnhancedPosition.get_fifo_sells
        ⟨"X", 120, [⟨0, 100, 100, .BUY, 0⟩, ⟨1, 50, 110, .BUY, 0⟩,
          ⟨2, 120, 120, .SELL, 0⟩]⟩ =
      [⟨0, 2, 100, 100 * (120 - 100)⟩, ⟨1, 2, 20, 20 * (120 - 110)⟩]) ∧
    (∀ r ∈ p.get_fifo_sells, ∃ bt st,
      p.transactions[r.buy_index]? = some bt ∧
      p.transactions[r.sell_index]? = some st ∧
      bt.transaction_type = .BUY ∧ st.transaction_type = .SELL ∧
      r.buy_index < r.sell_index ∧
      r.pnl = (r.quantity : ℚ) * (st.price - bt.price)) := by
  constructor
  · norm_num [EnhancedPosition.get_fifo_sells, fifoReplay, matchSell]
  · intro r hr
    exact fifoReplay_results_spec p.transactions p.transactions 0 [] rfl
      (by intro lot h; simp at h) r hr

/-- Witness for C9: the first emitted match of the concrete scenario pairs
transaction 0 (BUY @ 100) with transaction 2 (SELL @ 120). -/
theorem C9_fifo_matching_witness :
    ∃ bt st,
      ([⟨0, 100, 100, .BUY, 0⟩, ⟨1, 50, 110, .BUY, 0⟩, ⟨2, 120, 120, .SELL, 0⟩] :
        List PositionTransaction)[(⟨0, 2, 100, 100 * (120 - 100)⟩ : FifoMatch).buy_index]? =
          some bt ∧
      ([⟨0, 100, 100, .BUY, 0⟩, ⟨1, 50, 110, .BUY, 0⟩, ⟨2, 120, 120, .SELL, 0⟩] :
        List PositionTransaction)[(⟨0, 2, 100, 100 * (120 - 100)⟩ : FifoMatch).sell_index]? =
          some st ∧
      bt.transaction_type = .BUY ∧ st.transaction_type = .SELL ∧
      (⟨0, 2, 100, 100 * (120 - 100)⟩ : FifoMatch).buy_index <
        (⟨0, 2, 100, 100 * (120 - 100)⟩ : FifoMatch).sell_index ∧
      (⟨0, 2, 100, 100 * (120 - 100)⟩ : FifoMatch).pnl =
        ((⟨0, 2, 100, 100 * (120 - 100)⟩ : FifoMatch).quantity : ℚ) *
          (st.price - bt.price) := by
  refine (C9_fifo_matching ⟨"X", 120, [⟨0, 100, 100, .BUY, 0⟩, ⟨1, 50, 110, .BUY, 0⟩,
    ⟨2, 120, 120, .SELL, 0⟩]⟩).2 ⟨0, 2, 100, 100 * (120 - 100)⟩ ?_
  rw [(C9_fifo_matching ⟨"X", 120, [⟨0, 100, 100, .BUY, 0⟩, ⟨1, 50, 110, .BUY, 0⟩,
    ⟨2, 120, 120, .SELL, 0⟩]⟩).1]
  simp


/-- The inner sell loop matches exactly `min s (total remaining)` shares. -/
theorem matchSell_matched_sum (i : ℕ) (sp : ℚ) :
    ∀ (queue : List BuyLot) (s : ℤ), 0 ≤ s →
      (∀ lot ∈ queue, 0 ≤ lot.remaining) →
      (((matchSell i sp s queue).1.map (·.quantity)).sum =
        min s (sumRemaining queue)) := by
  intro queue
  induction queue with
  | nil =>
    intro s hs hq
    simp [matchSell, sumRemaining]
    omega
  | cons lot rest ih =>
    intro s hs hq
    have hrest : ∀ x ∈ rest, 0 ≤ x.remaining := fun x hx => hq x (by simp [hx])
    have hlot : 0 ≤ lot.remaining := hq lot (by simp)
    have hrsum : 0 ≤ (rest.map (fun x => x.remaining)).sum := by
      apply List.sum_nonneg
      intro x hx
      simp only [List.mem_map] at hx
      obtain ⟨y, hy, he⟩ := hx
      rw [← he]
      exact hrest y hy
    simp only [matchSell, sumRemaining, List.map_cons, List.sum_cons]
    split
    next hs0 =>
      simp only [List.map_nil, List.sum_nil]
      omega
    next hs0 =>
      split
      next hrem =>
        have hsub : 0 ≤ s - lot.remaining := by omega
        have hih := ih (s - lot.remaining) hsub hrest
        simp only [sumRemaining] at hih
        simp only [List.map_cons, List.sum_cons, hih]
        omega
      next hrem =>
        simp only [List.map_cons, List.map_nil, List.sum_cons, List.sum_nil]
        omega

/-- The inner sell loop keeps lot remainders nonnegative. -/
theorem matchSell_queue_nonneg (i : ℕ) (sp : ℚ) :
    ∀ (queue : List BuyLot) (s : ℤ),
      (∀ lot ∈ queue, 0 ≤ lot.remaining) →
      ∀ lot ∈ (matchSell i sp s queue).2, 0 ≤ lot.remaining := by
  intro queue
  induction queue with
  | nil => intro s hq lot h; simp [matchSell] at h
  | cons lot rest ih =>
    intro s hq lot2 h
    simp only [matchSell] at h
    split at h
    next => exact hq lot2 h
    next hs0 =>
      split at h
      next hrem =>
        exact ih (s - lot.remaining) (fun x hx => hq x (by simp [hx])) lot2 h
      next hrem =>
        rcases List.mem_cons.1 h with h2 | h2
        · subst h2
          simp only []
          omega
        · exact hq lot2 (by simp [h2])

/-- The FIFO replay keeps lot remainders nonnegative when all transaction
quantities are nonnegative. -/
theorem fifoReplay_queue_nonneg :
    ∀ (txs : List PositionTransaction) (i : ℕ) (queue : List BuyLot),
      (∀ t ∈ txs, 0 ≤ t.quantity) →
      (∀ lot ∈ queue, 0 ≤ lot.remaining) →
      ∀ lot ∈ (fifoReplay i queue txs).2, 0 ≤ lot.remaining := by
  intro txs
  induction txs with
  | nil => intro i queue htx hq lot h; simpa [fifoReplay] using hq lot h
  | cons t rest ih =>
    intro i queue htx hq lot h
    cases htype : t.transaction_type with
    | BUY =>
      simp only [fifoReplay, htype] at h
      refine ih (i + 1) _ (fun x hx => htx x (by simp [hx])) ?_ lot h
      intro x hx
      rcases List.mem_append.1 hx with h2 | h2
      · exact hq x h2
      · simp only [List.mem_singleton] at h2
        subst h2
        exact htx t (by simp)
    | SELL =>
      simp only [fifoReplay, htype] at h
      exact ih (i + 1) _ (fun x hx => htx x (by simp [hx]))
        (matchSell_queue_nonneg i t.price queue t.quantity hq) lot h

/-- The FIFO replay processes an appended suffix from the state reached
after the prefix. -/
theorem fifoReplay_append :
    ∀ (l1 : List PositionTransaction) (i : ℕ) (queue : List BuyLot)
      (l2 : List PositionTransaction),
      fifoReplay i queue (l1 ++ l2) =
        ((fifoReplay i queue l1).1 ++
          (fifoReplay (i + l1.length) (fifoReplay i queue l1).2 l2).1,
         (fifoReplay (i + l1.length) (fifoReplay i queue l1).2 l2).2) := by
  intro l1
  induction l1 with
  | nil => intro i queue l2; simp [fifoReplay]
  | cons t rest ih =>
    intro i queue l2
    cases htype : t.transaction_type with
    | BUY =>
      simp only [List.cons_append, fifoReplay, htype, List.length_cons,
        List.append_eq]
      rw [ih]
      have hn : i + (rest.length + 1) = i + 1 + rest.length := by omega
      rw [hn]
    | SELL =>
      simp only [List.cons_append, fifoReplay, htype, List.length_cons,
        List.append_eq, List.append_assoc]
      rw [ih]
      have hn : i + (rest.length + 1) = i + 1 + rest.length := by omega
      rw [hn]

/-- Sell indices of emitted matches lie in the processed index range. -/
theorem fifoReplay_sell_index_lt :
    ∀ (txs : List PositionTransaction) (i : ℕ) (queue : List BuyLot),
      ∀ r ∈ (fifoReplay i queue txs).1,
        i ≤ r.sell_index ∧ r.sell_index < i + txs.length := by
  intro txs
  induction txs with
  | nil => intro i queue r hr; simp [fifoReplay] at hr
  | cons t rest ih =>
    intro i queue r hr
    cases htype : t.transaction_type with
    | BUY =>
      simp only [fifoReplay, htype] at hr
      have := ih (i + 1) _ r hr
      simp only [List.length_cons]
      omega
    | SELL =>
      simp only [fifoReplay, htype] at hr
      rcases List.mem_append.1 hr with h | h
      · have := (matchSell_results_mem i t.price queue t.quantity r h).1
        simp only [List.length_cons]
        omega
      · have := ih (i + 1) _ r h
        simp only [List.length_cons]
        omega


/-- C10: for every transaction list with nonnegative quantities and a
trailing SELL — including an oversell, where the SELL quantity exceeds the
total remaining lot quantity — `get_fifo_sells` returns, and the total
matched quantity attributed to that SELL equals the minimum of its
quantity and the remaining lot quantity; the unmatched excess is silently
dropped, with no error. -/
theorem C10_fifo_oversell (symbol : String) (cp : ℚ)
    (txs : List PositionTransaction) (sellTx : PositionTransaction)
    (hq : ∀ t ∈ txs, 0 ≤ t.quantity) (hsq : 0 ≤ sellTx.quantity)
    (hst : sellTx.transaction_type = .SELL) :
    matchedTo (EnhancedPosition.get_fifo_sells ⟨symbol, cp, txs ++ [sellTx]⟩)
        txs.length =
      min sellTx.quantity (sumRemaining (fifoReplay 0 [] txs).2) := by
  have hQnn : ∀ lot ∈ (fifoReplay 0 [] txs).2, 0 ≤ lot.remaining :=
    fifoReplay_queue_nonneg txs 0 [] hq (by intro lot h; simp at h)
  unfold matchedTo EnhancedPosition.get_fifo_sells
  rw [show (⟨symbol, cp, txs ++ [sellTx]⟩ : EnhancedPosition).transactions =
    txs ++ [sellTx] from rfl]
  rw [fifoReplay_append txs 0 [] [sellTx]]
  simp only [fifoReplay, hst, Nat.zero_add, List.append_nil]
  rw [List.filter_append]
  have hA : ((fifoReplay 0 [] txs).1.filter
      (fun r => r.sell_index == txs.length)) = [] := by
    rw [List.filter_eq_nil_iff]
    intro r hr
    have hb := fifoReplay_sell_index_lt txs 0 [] r hr
    simp only [beq_iff_eq]
    omega
  have hM : ((matchSell txs.length sellTx.price sellTx.quantity
        (fifoReplay 0 [] txs).2).1.filter
      (fun r => r.sell_index == txs.length)) =
      (matchSell txs.length sellTx.price sellTx.quantity
        (fifoReplay 0 [] txs).2).1 := by
    rw [List.filter_eq_self]
    intro r hr
    have hb := (matchSell_results_mem txs.length sellTx.price
      (fifoReplay 0 [] txs).2 sellTx.quantity r hr).1
    simp [beq_iff_eq, hb]
  rw [hA, hM, List.nil_append]
  exact matchSell_matched_sum txs.length sellTx.price (fifoReplay 0 [] txs).2
    sellTx.quantity hsq hQnn


/-- Witness for C10: selling 150 against a single 100-share lot matches
exactly min 150 100 = 100 shares. -/
theorem C10_fifo_oversell_witness :
    matchedTo (EnhancedPosition.get_fifo_sells ⟨"X", 0,
        [⟨0, 100, 100, .BUY, 0⟩] ++ [⟨1, 150, 120, .SELL, 0⟩]⟩)
        ([⟨0, 100, 100, .BUY, 0⟩] : List PositionTransaction).length =
      min (⟨1, 150, 120, .SELL, 0⟩ : PositionTransaction).quantity
        (sumRemaining (fifoReplay 0 [] [⟨0, 100, 100, .BUY, 0⟩]).2) :=
  C10_fifo_oversell "X" 0 [⟨0, 100, 100, .BUY, 0⟩] ⟨1, 150, 120, .SELL, 0⟩
    (by decide) (by decide) rfl

end Artha
